import Mathlib

/-!
Shallow embedding of the time/logical/pixel coordinate mapping layer of the
`TimeScaleApi` class (src/api/time-scale-api.ts, binary-search revision).

Modelling conventions:
* A domain time value is identified with its internal comparable key
  (the Key Strategy `key ∘ convertHorzItemToInternal` is an external,
  deterministic, order-preserving pure function; composing it away is
  harmless because every operation modelled here consumes only the key).
  Keys are modelled as `Int`.
* The backing index table (`indexToTimeScalePoint`) is a finite association
  list `points : List (Int × Int)` from logical index to key; `none` entries
  of the table are simply the indices that do not occur in the list.
* `indexToCoordinate` and `coordinateToIndex` are opaque pure maps held as
  function fields, as the spec describes them (pure functions of current
  spacing/offset state).
* JavaScript `null` becomes `Option.none`; a thrown assertion becomes
  `Except.error`.
-/

/-- State of the time scale as seen by `TimeScaleApi`: the backing
index→point table, the two pure coordinate maps, and the ranges served by
the underlying `TimeScale` model object. -/
structure TimeScale where
  points : List (Int × Int)
  coord : Int → Int
  coordinateToIndex : Int → Int
  strictRange : Option (Int × Int)
  visibleTimeRange : Option (Int × Int)
  visibleLogicalRange : Option (Int × Int)

/-- Embedding of `indexToTimeScalePoint` composed with the key strategy:
the key of the present point at logical index `i`, or `none` on a gap. -/
def TimeScale.keyAt (ts : TimeScale) (i : Int) : Option Int :=
  (ts.points.find? (fun p => p.1 == i)).map (fun p => p.2)

/-- Modelled from the spec: `TimeScale.isEmpty` (model/time-scale.ts is not
in the visible sources) — true exactly when the mapper holds no data at
all. -/
def TimeScale.isEmpty (ts : TimeScale) : Bool :=
  ts.points.isEmpty

/-- Modelled from the spec: `TimeScale.timeToIndex(time, exactRequired)`
(model/time-scale.ts is not in the visible sources) — converts via the Key
Strategy then looks up the exact present entry whose key equals the
converted key; with `exactRequired = false` and no layered nearest-match
policy the result is still exact-only (`absent` when no exact match), which
is the contract the spec guarantees at minimum. The boolean is kept to
mirror the call sites. -/
def TimeScale.timeToIndex (ts : TimeScale) (k : Int) (_exactRequired : Bool) : Option Int :=
  (ts.points.find? (fun p => p.2 == k)).map (fun p => p.1)

/-- Embedding of `TimeScaleApi.timeToCoordinate`: key conversion + exact
index lookup + index-to-coordinate; `null` when no exact match. -/
def timeToCoordinate (ts : TimeScale) (k : Int) : Option Int :=
  match ts.timeToIndex k false with
  | none => none
  | some i => some (ts.coord i)

/-- The midpoint computation of the binary search:
`Math.floor((left + right) / 2)` is flooring division by 2. -/
def midIndex (l r : Int) : Int :=
  (l + r).fdiv 2

/-- The termination measure of the binary-search while-loop: the size of
the inclusive window `[l, r]`. -/
def loopMeasure (l r : Int) : Nat :=
  (r + 1 - l).toNat

/-- Embedding of the forward gap probe inside `timeToCoordinateRounded`
(the `while (validIndex <= right)` scan): the first present index at or
after `i`, not exceeding `r`. -/
def scanForward (ts : TimeScale) (i r : Int) : Option Int :=
  if h : i ≤ r then
    match ts.keyAt i with
    | some _ => some i
    | none => scanForward ts (i + 1) r
  else none
termination_by (r + 1 - i).toNat
decreasing_by
  omega

/-- Embedding of the backward gap probe inside `timeToCoordinateRounded`
(the `while (validIndex >= left)` scan): the first present index at or
below `i`, not preceding `l`. -/
def scanBackward (ts : TimeScale) (i l : Int) : Option Int :=
  if h : l ≤ i then
    match ts.keyAt i with
    | some _ => some i
    | none => scanBackward ts (i - 1) l
  else none
termination_by (i + 1 - l).toNat
decreasing_by
  omega

/-- Embedding of the binary-search while-loop of `timeToCoordinateRounded`
(part_000 revision), returning the chosen logical index rather than its
coordinate (every `return this._timeScale.indexToCoordinate(x)` of the
source corresponds to `some x` here, and `return null` to `none`; the
caller applies `coord`). -/
def nearestLoop (ts : TimeScale) (k l r : Int) : Option Int :=
  if h : l ≤ r then
    let mid := midIndex l r
    match ts.keyAt mid with
    | none =>
      match scanForward ts mid r with
      | some j => some j
      | none =>
        match scanBackward ts (mid - 1) l with
        | some j => some j
        | none => none
    | some currentKey =>
      if currentKey = k then some mid
      else if currentKey < k then
        if l = r - 1 then
          match ts.keyAt r with
          | none => some mid
          | some nextKey =>
            some (if (currentKey - k).natAbs ≤ (nextKey - k).natAbs then mid else r)
        else nearestLoop ts k (mid + 1) r
      else
        if l = r - 1 then
          match ts.keyAt l with
          | none => some mid
          | some prevKey =>
            some (if (prevKey - k).natAbs ≤ (currentKey - k).natAbs then l else mid)
        else nearestLoop ts k l (mid - 1)
  else
    match ts.keyAt l, ts.keyAt r with
    | none, none => none
    | none, some _ => some r
    | some _, none => some l
    | some lk, some rk =>
      some (if (lk - k).natAbs ≤ (rk - k).natAbs then l else r)
termination_by loopMeasure l r
decreasing_by
  · have h2 : (l + r).fdiv 2 = (l + r) / 2 := Int.fdiv_eq_ediv _ (by norm_num)
    simp only [loopMeasure, midIndex]
    omega
  · have h2 : (l + r).fdiv 2 = (l + r) / 2 := Int.fdiv_eq_ediv _ (by norm_num)
    simp only [loopMeasure, midIndex]
    omega

/-- Embedding of `TimeScaleApi.timeToCoordinateRounded` (part_000
revision): exact lookup first; on failure, the nearest-index binary search
bounded by the visible strict range. -/
def timeToCoordinateRounded (ts : TimeScale) (k : Int) : Option Int :=
  match timeToCoordinate ts k with
  | some c => some c
  | none =>
    match ts.strictRange with
    | none => none
    | some lr => (nearestLoop ts k lr.1 lr.2).map ts.coord

/-- Embedding of `TimeScaleApi.logicalToCoordinate`: `null` when the time
scale is empty, otherwise the underlying `indexToCoordinate` result. -/
def logicalToCoordinate (ts : TimeScale) (logical : Int) : Option Int :=
  if ts.isEmpty then none else some (ts.coord logical)

/-- Embedding of `TimeScaleApi.coordinateToLogical`: `null` when the time
scale is empty, otherwise the underlying `coordinateToIndex` result. -/
def coordinateToLogical (ts : TimeScale) (x : Int) : Option Int :=
  if ts.isEmpty then none else some (ts.coordinateToIndex x)

/-- Embedding of `TimeScaleApi.setVisibleLogicalRange`. The `assert` call
becomes `Except.error` (the thrown programmer-error fault); `Except.ok v`
records that `model.setTargetLogicalRange` was invoked with the range `v`.
An error result means the assertion fired before any state mutation: no
invocation happened and no state is produced. -/
def setVisibleLogicalRange (rFrom rTo : Int) : Except String (Int × Int) :=
  if rFrom ≤ rTo then Except.ok (rFrom, rTo)
  else Except.error "The from index cannot be after the to index."

/-- Modelled from the spec: the `Delegate` listener registry
(helpers/delegate.ts is not in the visible sources) — only the listener
list matters for the claims here; listeners are identified by tokens. -/
structure Delegate where
  listeners : List Nat

/-- Modelled from the spec: `Delegate.hasListeners`
(helpers/delegate.ts is not in the visible sources) — the cheap predicate
that someone is listening. -/
def Delegate.hasListeners (d : Delegate) : Bool :=
  !d.listeners.isEmpty

/-- Embedding of `TimeScaleApi.getVisibleRange`: the visible time range of
the underlying scale (already in caller-facing from/to form), or `null`. -/
def getVisibleRange (ts : TimeScale) : Option (Int × Int) :=
  match ts.visibleTimeRange with
  | none => none
  | some tr => some (tr.1, tr.2)

/-- Embedding of `TimeScaleApi.getVisibleLogicalRange`: the visible logical
range of the underlying scale as a from/to pair, or `null`. -/
def getVisibleLogicalRange (ts : TimeScale) : Option (Int × Int) :=
  match ts.visibleLogicalRange with
  | none => none
  | some lr => some (lr.1, lr.2)

/-- Embedding of `TimeScaleApi._onVisibleBarsChanged`. The result models
the observable effect of the handler: `some payload` means the delegate
fired with the freshly constructed payload; `none` means no payload was
constructed and no fire occurred. -/
def onVisibleBarsChanged (d : Delegate) (ts : TimeScale) : Option (Option (Int × Int)) :=
  if d.hasListeners then some (getVisibleRange ts) else none

/-- Embedding of `TimeScaleApi._onVisibleLogicalRangeChanged`, with the
same effect encoding as `onVisibleBarsChanged`. -/
def onVisibleLogicalRangeChanged (d : Delegate) (ts : TimeScale) : Option (Option (Int × Int)) :=
  if d.hasListeners then some (getVisibleLogicalRange ts) else none

/-! Concrete instances used by the claim scenarios. -/

/-- The tie-break scenario of the spec's Nearest-correctness property:
present points at indices 0, 1, 2 with keys 1, 5, 9, strict range `[0, 2]`,
with an arbitrary coordinate map `c`. -/
def tieTS (c : Int → Int) : TimeScale :=
  { points := [(0, 1), (1, 5), (2, 9)], coord := c,
    coordinateToIndex := fun x => x, strictRange := some (0, 2),
    visibleTimeRange := none, visibleLogicalRange := none }

/-- `tieTS` with the concrete injective coordinate map `i ↦ 10 * i`. -/
def tieTSc : TimeScale :=
  tieTS (fun i => 10 * i)

/-- The gap-tolerance scenario of the spec: present points at index 0
(key 1) and index 2 (key 10), index 1 absent, strict range `[0, 2]`. -/
def gapTS (c : Int → Int) : TimeScale :=
  { points := [(0, 1), (2, 10)], coord := c,
    coordinateToIndex := fun x => x, strictRange := some (0, 2),
    visibleTimeRange := none, visibleLogicalRange := none }

/-- `gapTS` with the concrete injective coordinate map `i ↦ 100 * i`. -/
def gapTSc : TimeScale :=
  gapTS (fun i => 100 * i)

/-- A scale whose strict range `[0, 6]` has present boundary points
(indices 0 and 6) and interior points at 1 and 3, but gaps at 2, 4, 5. -/
def sparseTS : TimeScale :=
  { points := [(0, 0), (1, 10), (3, 30), (6, 60)], coord := fun i => i,
    coordinateToIndex := fun x => x, strictRange := some (0, 6),
    visibleTimeRange := none, visibleLogicalRange := none }

/-- A scale with no data at all. -/
def emptyTS : TimeScale :=
  { points := [], coord := fun i => i,
    coordinateToIndex := fun x => x, strictRange := none,
    visibleTimeRange := none, visibleLogicalRange := none }

/-- A gap straddling the midpoint of `[0, 4]`: present points only at the
boundaries 0 and 4, indices 1, 2, 3 absent. -/
def probeTS : TimeScale :=
  { points := [(0, 0), (4, 40)], coord := fun i => 7 * i,
    coordinateToIndex := fun x => x, strictRange := some (0, 4),
    visibleTimeRange := none, visibleLogicalRange := none }

/-- A dense scale on `[0, 5]` with keys `10 * i`. -/
def denseTS : TimeScale :=
  { points := [(0, 0), (1, 10), (2, 20), (3, 30), (4, 40), (5, 50)],
    coord := fun i => i, coordinateToIndex := fun x => x,
    strictRange := some (0, 5),
    visibleTimeRange := some (3, 8), visibleLogicalRange := some (0, 5) }

/-! Characterizations of the gap probes and of the exact lookup. -/

theorem midIndex_eq_ediv (l r : Int) : midIndex l r = (l + r) / 2 :=
  Int.fdiv_eq_ediv _ (by norm_num)

theorem midIndex_bounds {l r : Int} (h : l ≤ r) :
    l ≤ midIndex l r ∧ midIndex l r ≤ r := by
  rw [midIndex_eq_ediv]
  omega

theorem scanForward_first_aux (ts : TimeScale) (r : Int) :
    ∀ (n : Nat) (i j : Int), (j - i).toNat ≤ n → i ≤ j → j ≤ r →
      (ts.keyAt j).isSome → (∀ m, i ≤ m → m < j → ts.keyAt m = none) →
      scanForward ts i r = some j := by
  intro n
  induction n with
  | zero =>
    intro i j hn hij hjr hp hmin
    have hij' : i = j := by omega
    subst hij'
    obtain ⟨v, hv⟩ := Option.isSome_iff_exists.mp hp
    rw [scanForward]
    simp [hjr, hv]
  | succ n ih =>
    intro i j hn hij hjr hp hmin
    rcases eq_or_lt_of_le hij with heq | hlt
    · subst heq
      obtain ⟨v, hv⟩ := Option.isSome_iff_exists.mp hp
      rw [scanForward]
      simp [hjr, hv]
    · have hk : ts.keyAt i = none := hmin i le_rfl hlt
      rw [scanForward]
      have hir : i ≤ r := by omega
      simp only [hir, dite_true, hk, dif_pos]
      exact ih (i + 1) j (by omega) (by omega) hjr hp
        (fun m h1 h2 => hmin m (by omega) h2)

theorem scanForward_first (ts : TimeScale) (i r j : Int) (hij : i ≤ j) (hjr : j ≤ r)
    (hp : (ts.keyAt j).isSome) (hmin : ∀ m, i ≤ m → m < j → ts.keyAt m = none) :
    scanForward ts i r = some j :=
  scanForward_first_aux ts r (j - i).toNat i j le_rfl hij hjr hp hmin

theorem scanForward_all_none_aux (ts : TimeScale) (r : Int) :
    ∀ (n : Nat) (i : Int), (r + 1 - i).toNat ≤ n →
      (∀ m, i ≤ m → m ≤ r → ts.keyAt m = none) → scanForward ts i r = none := by
  intro n
  induction n with
  | zero =>
    intro i hn hall
    rw [scanForward]
    simp [show ¬ i ≤ r by omega]
  | succ n ih =>
    intro i hn hall
    by_cases hir : i ≤ r
    · have hk := hall i le_rfl hir
      rw [scanForward]
      simp only [hir, dite_true, hk, dif_pos]
      exact ih (i + 1) (by omega) (fun m h1 h2 => hall m (by omega) h2)
    · rw [scanForward]
      simp [hir]

theorem scanForward_all_none (ts : TimeScale) (i r : Int)
    (hall : ∀ m, i ≤ m → m ≤ r → ts.keyAt m = none) :
    scanForward ts i r = none :=
  scanForward_all_none_aux ts r (r + 1 - i).toNat i le_rfl hall

theorem scanBackward_first_aux (ts : TimeScale) (l : Int) :
    ∀ (n : Nat) (i j : Int), (i - j).toNat ≤ n → j ≤ i → l ≤ j →
      (ts.keyAt j).isSome → (∀ m, j < m → m ≤ i → ts.keyAt m = none) →
      scanBackward ts i l = some j := by
  intro n
  induction n with
  | zero =>
    intro i j hn hji hlj hp hmin
    have hij' : i = j := by omega
    subst hij'
    obtain ⟨v, hv⟩ := Option.isSome_iff_exists.mp hp
    rw [scanBackward]
    simp [hlj, hv]
  | succ n ih =>
    intro i j hn hji hlj hp hmin
    rcases eq_or_lt_of_le hji with heq | hlt
    · subst heq
      obtain ⟨v, hv⟩ := Option.isSome_iff_exists.mp hp
      rw [scanBackward]
      simp [hlj, hv]
    · have hk : ts.keyAt i = none := hmin i hlt le_rfl
      rw [scanBackward]
      have hli : l ≤ i := by omega
      simp only [hli, dite_true, hk, dif_pos]
      exact ih (i - 1) j (by omega) (by omega) hlj hp
        (fun m h1 h2 => hmin m h1 (by omega))

theorem scanBackward_first (ts : TimeScale) (i l j : Int) (hji : j ≤ i) (hlj : l ≤ j)
    (hp : (ts.keyAt j).isSome) (hmin : ∀ m, j < m → m ≤ i → ts.keyAt m = none) :
    scanBackward ts i l = some j :=
  scanBackward_first_aux ts l (i - j).toNat i j le_rfl hji hlj hp hmin

theorem scanBackward_all_none_aux (ts : TimeScale) (l : Int) :
    ∀ (n : Nat) (i : Int), (i + 1 - l).toNat ≤ n →
      (∀ m, l ≤ m → m ≤ i → ts.keyAt m = none) → scanBackward ts i l = none := by
  intro n
  induction n with
  | zero =>
    intro i hn hall
    rw [scanBackward]
    simp [show ¬ l ≤ i by omega]
  | succ n ih =>
    intro i hn hall
    by_cases hli : l ≤ i
    · have hk := hall i hli le_rfl
      rw [scanBackward]
      simp only [hli, dite_true, hk, dif_pos]
      exact ih (i - 1) (by omega) (fun m h1 h2 => hall m h1 (by omega))
    · rw [scanBackward]
      simp [hli]

theorem scanBackward_all_none (ts : TimeScale) (i l : Int)
    (hall : ∀ m, l ≤ m → m ≤ i → ts.keyAt m = none) :
    scanBackward ts i l = none :=
  scanBackward_all_none_aux ts l (i + 1 - l).toNat i le_rfl hall

theorem nearestLoop_gap (ts : TimeScale) (k l r : Int) (h : l ≤ r)
    (hm : ts.keyAt (midIndex l r) = none) :
    nearestLoop ts k l r =
      (match scanForward ts (midIndex l r) r with
       | some j => some j
       | none =>
         match scanBackward ts (midIndex l r - 1) l with
         | some j => some j
         | none => none) := by
  rw [nearestLoop]
  simp [h, hm]

theorem find?_key_unique (i k : Int) :
    ∀ (l : List (Int × Int)), l.Pairwise (fun p q => p.2 ≠ q.2) → (i, k) ∈ l →
      l.find? (fun p => p.2 == k) = some (i, k) := by
  intro l
  induction l with
  | nil =>
    intro _ h
    simp at h
  | cons a tl ih =>
    intro hpw hmem
    rcases List.pairwise_cons.mp hpw with ⟨ha, htl⟩
    rcases List.mem_cons.mp hmem with heq | hmem'
    · subst heq
      simp [List.find?_cons_of_pos]
    · have hak : a.2 ≠ k := ha (i, k) hmem'
      rw [List.find?_cons_of_neg _ (by simp [hak])]
      exact ih htl hmem'

/-! The claims. -/

/-- Claim C1: for a backing sequence with present points at logical indices
0, 1, 2 whose keys are 1, 5, 9, and target key 7 (no exact match), the
nearest-index resolution performed by `timeToCoordinateRounded` returns
the coordinate of index 2 (key 9, distance 2) rather than that of index 1
(key 5, distance 2). -/
theorem c1_nearest_tie_scenario :
    (∀ c : Int → Int, timeToCoordinateRounded (tieTS c) 7 = some (c 2)) ∧
    ¬ timeToCoordinateRounded tieTSc 7 = some (tieTSc.coord 1) := by
  have h : ∀ c : Int → Int, timeToCoordinateRounded (tieTS c) 7 = some (c 2) := by
    intro c
    simp [timeToCoordinateRounded, timeToCoordinate, TimeScale.timeToIndex, nearestLoop,
      scanForward, scanBackward, TimeScale.keyAt, tieTS, List.find?, midIndex, Int.fdiv]
  refine ⟨h, ?_⟩
  rw [show timeToCoordinateRounded tieTSc 7 = some ((fun i => 10 * i) 2) from h _]
  decide

/-- Counterexample to claim C2 as stated: at the loop-exit state reached
from the `[1, 5, 9]` scenario (final boundaries `left = 2`, `right = 1`,
both present, equal key distance 2 to target 7), the resolver returns the
boundary index 2 — the higher one — not the lower index 1. -/
theorem c2_counterexample :
    tieTSc.keyAt 2 = some 9 ∧ tieTSc.keyAt 1 = some 5 ∧
    ((9 : Int) - 7).natAbs = ((5 : Int) - 7).natAbs ∧
    nearestLoop tieTSc 7 2 1 = some 2 ∧ ¬ nearestLoop tieTSc 7 2 1 = some 1 := by
  have h : nearestLoop tieTSc 7 2 1 = some 2 := by
    simp [nearestLoop, TimeScale.keyAt, tieTSc, tieTS, List.find?]
  refine ⟨by decide, by decide, by decide, h, ?_⟩
  rw [h]
  decide

/-- Claim C2 (amended): whenever the binary-search loop exits without
having returned (left has crossed right) and the points at both final
boundary indices are present with equal absolute key distance to the
target, the resolver returns the final value of the `left` variable —
which, having crossed, is the HIGHER of the two boundary indices, not the
lower one. -/
theorem c2_exit_tie_prefers_left_var (ts : TimeScale) (k l r lk rk : Int)
    (hcross : r < l) (hl : ts.keyAt l = some lk) (hr : ts.keyAt r = some rk)
    (htie : (lk - k).natAbs = (rk - k).natAbs) :
    nearestLoop ts k l r = some l := by
  have h : ¬ l ≤ r := by omega
  rw [nearestLoop]
  simp [h, hl, hr, htie]

/-- Witness for the amended claim C2 at the concrete exit state of the
`[1, 5, 9]` / target 7 scenario. -/
theorem c2_witness : nearestLoop tieTSc 7 2 1 = some 2 :=
  c2_exit_tie_prefers_left_var tieTSc 7 2 1 9 5 (by norm_num) (by decide) (by decide)
    (by decide)

/-- Counterexample to claim C3 as stated: with present points at index 0
(key 1) and index 2 (key 10), index 1 absent, and target key 1, the
nearest-index resolution loop over bounds `[0, 2]` returns index 2 (the
first present point found probing forward from the absent midpoint 1), not
index 0. -/
theorem c3_counterexample :
    nearestLoop gapTSc 1 0 2 = some 2 ∧ ¬ nearestLoop gapTSc 1 0 2 = some 0 := by
  have h : nearestLoop gapTSc 1 0 2 = some 2 := by
    simp [nearestLoop, scanForward, scanBackward, TimeScale.keyAt, gapTSc, gapTS,
      List.find?, midIndex, Int.fdiv]
  refine ⟨h, ?_⟩
  rw [h]
  decide

/-- Claim C3 (amended): in the gap scenario (present points `{0: key 1,
2: key 10}`, index 1 absent, target key 1), the resolution loop over
bounds `[0, 2]` returns index 2 via the forward gap probe, without
raising; the full `timeToCoordinateRounded` nonetheless returns the
coordinate of index 0, because the exact-match path resolves key 1 at
index 0 before the loop is ever entered. -/
theorem c3_gap_scenario (c : Int → Int) :
    nearestLoop (gapTS c) 1 0 2 = some 2 ∧
    timeToCoordinateRounded (gapTS c) 1 = some (c 0) := by
  constructor
  · simp [nearestLoop, scanForward, scanBackward, TimeScale.keyAt, gapTS, List.find?,
      midIndex, Int.fdiv]
  · simp [timeToCoordinateRounded, timeToCoordinate, TimeScale.timeToIndex, gapTS,
      List.find?]

/-- Counterexample to claim C4 as stated: `sparseTS` has a non-null
visible strict range `[0, 6]` with present points at both boundaries (and
is not empty), yet `timeToCoordinateRounded` at key 20 returns absent —
the search narrows to the all-absent window `[2, 2]` and both gap probes
fail inside it. -/
theorem c4_counterexample :
    sparseTS.strictRange = some (0, 6) ∧
    (sparseTS.keyAt 0).isSome = true ∧ (sparseTS.keyAt 6).isSome = true ∧
    sparseTS.isEmpty = false ∧
    timeToCoordinateRounded sparseTS 20 = none := by
  refine ⟨rfl, by decide, by decide, by decide, ?_⟩
  simp [timeToCoordinateRounded, timeToCoordinate, TimeScale.timeToIndex, nearestLoop,
    scanForward, scanBackward, TimeScale.keyAt, sparseTS, List.find?, midIndex, Int.fdiv]

/-- Claim C4 (amended): `timeToCoordinateRounded` returns absent whenever
no present point has the exact key and the visible strict range is null;
and an absent result always implies the exact lookup failed. The converse
of the original claim fails: a non-null strict range (even with present
boundary points) does not guarantee a coordinate. -/
theorem c4_absent_behavior (ts : TimeScale) (k : Int) :
    (ts.timeToIndex k false = none → ts.strictRange = none →
      timeToCoordinateRounded ts k = none) ∧
    (timeToCoordinateRounded ts k = none → ts.timeToIndex k false = none) := by
  constructor
  · intro h1 h2
    simp [timeToCoordinateRounded, timeToCoordinate, h1, h2]
  · intro h
    cases hti : ts.timeToIndex k false with
    | none => rfl
    | some i => simp [timeToCoordinateRounded, timeToCoordinate, hti] at h

/-- Witness for the amended claim C4 on the empty scale. -/
theorem c4_witness : timeToCoordinateRounded emptyTS 5 = none :=
  (c4_absent_behavior emptyTS 5).1 (by decide) rfl

/-- Claim C5: `timeToCoordinate` returns absent exactly when no present
point has the converted key; when a point with that exact key exists at
index `i` (keys of present points being pairwise distinct, per the
ascending-key invariant), it returns `indexToCoordinate i` — exact-match
semantics only. -/
theorem c5_exact_match_semantics (ts : TimeScale) (k : Int) :
    (timeToCoordinate ts k = none ↔ ∀ p ∈ ts.points, p.2 ≠ k) ∧
    (ts.points.Pairwise (fun p q => p.2 ≠ q.2) →
      ∀ i, (i, k) ∈ ts.points → timeToCoordinate ts k = some (ts.coord i)) := by
  constructor
  · cases hf : ts.points.find? (fun p => p.2 == k) with
    | none =>
      simp only [timeToCoordinate, TimeScale.timeToIndex, hf, Option.map_none', true_iff]
      intro p hp
      have := List.find?_eq_none.mp hf p hp
      simpa using this
    | some q =>
      have hq : q.2 = k := by simpa using List.find?_some hf
      simp only [timeToCoordinate, TimeScale.timeToIndex, hf, Option.map_some']
      constructor
      · intro h
        simp at h
      · intro hall
        exact absurd hq (hall q (List.mem_of_find?_eq_some hf))
  · intro hpw i hmem
    have := find?_key_unique i k ts.points hpw hmem
    simp [timeToCoordinate, TimeScale.timeToIndex, this]

/-- Witness for claim C5 on the `[1, 5, 9]` scale: key 5 resolves to the
coordinate of index 1 and key 7 (no exact match) to absent. -/
theorem c5_witness :
    timeToCoordinate tieTSc 5 = some (tieTSc.coord 1) ∧
    timeToCoordinate tieTSc 7 = none := by
  constructor
  · exact (c5_exact_match_semantics tieTSc 5).2 (by decide) 1 (by decide)
  · exact (c5_exact_match_semantics tieTSc 7).1.mpr (by decide)

/-- Claim C6: `setVisibleLogicalRange` with `from > to` fails with the
programmer-error assertion before any state mutation — the error result
carries no `setTargetLogicalRange` invocation; with `from <= to` the
assertion passes and `setTargetLogicalRange` is invoked with the range. -/
theorem c6_range_assertion (rFrom rTo : Int) :
    (rTo < rFrom →
      setVisibleLogicalRange rFrom rTo =
        Except.error "The from index cannot be after the to index.") ∧
    (rFrom ≤ rTo → setVisibleLogicalRange rFrom rTo = Except.ok (rFrom, rTo)) := by
  constructor
  · intro h
    have h' : ¬ rFrom ≤ rTo := by omega
    simp [setVisibleLogicalRange, h']
  · intro h
    simp [setVisibleLogicalRange, h]

/-- Witness for claim C6 at the spec's concrete inputs. -/
theorem c6_witness :
    setVisibleLogicalRange 10 3 =
      Except.error "The from index cannot be after the to index." ∧
    setVisibleLogicalRange 3 10 = Except.ok (3, 10) :=
  ⟨(c6_range_assertion 10 3).1 (by norm_num), (c6_range_assertion 3 10).2 (by norm_num)⟩

/-- Claim C7: when the binary search lands on an absent midpoint, it
returns the first present index of `[mid, right]` (forward probe)
immediately; only when `[mid, right]` is wholly absent does it return the
first present index found scanning backward from `mid - 1` down to `left`
(i.e. the greatest present index of `[left, mid - 1]`); and when neither
direction yields a present point it returns absent. -/
theorem c7_gap_probe_order (ts : TimeScale) (k l r : Int) (hlr : l ≤ r)
    (hm : ts.keyAt (midIndex l r) = none) :
    (∀ j, midIndex l r ≤ j → j ≤ r → (ts.keyAt j).isSome →
        (∀ m, midIndex l r ≤ m → m < j → ts.keyAt m = none) →
        nearestLoop ts k l r = some j) ∧
    ((∀ m, midIndex l r ≤ m → m ≤ r → ts.keyAt m = none) →
      ∀ j, l ≤ j → j < midIndex l r → (ts.keyAt j).isSome →
        (∀ m, j < m → m < midIndex l r → ts.keyAt m = none) →
        nearestLoop ts k l r = some j) ∧
    ((∀ m, l ≤ m → m ≤ r → ts.keyAt m = none) → nearestLoop ts k l r = none) := by
  have hmb : l ≤ midIndex l r ∧ midIndex l r ≤ r := midIndex_bounds hlr
  refine ⟨?_, ?_, ?_⟩
  · intro j h1 h2 h3 h4
    rw [nearestLoop_gap ts k l r hlr hm]
    rw [scanForward_first ts (midIndex l r) r j h1 h2 h3 h4]
  · intro hfwd j h1 h2 h3 h4
    rw [nearestLoop_gap ts k l r hlr hm]
    rw [scanForward_all_none ts (midIndex l r) r hfwd]
    rw [scanBackward_first ts (midIndex l r - 1) l j (by omega) h1 h3
      (fun m hm1 hm2 => h4 m hm1 (by omega))]
  · intro hall
    rw [nearestLoop_gap ts k l r hlr hm]
    rw [scanForward_all_none ts (midIndex l r) r (fun m h1 h2 => hall m (by omega) h2)]
    rw [scanBackward_all_none ts (midIndex l r - 1) l (fun m h1 h2 => hall m h1 (by omega))]

/-- Witness for claim C7 on `probeTS` (present only at 0 and 4, target key
1): the absent midpoint 2 triggers the forward probe, which returns index
4 immediately even though index 0 is closer in key distance. -/
theorem c7_witness : nearestLoop probeTS 1 0 4 = some 4 := by
  have hmid : midIndex 0 4 = 2 := by decide
  refine (c7_gap_probe_order probeTS 1 0 4 (by norm_num) (by decide)).1 4 ?_ (by norm_num)
    (by decide) ?_
  · rw [hmid]
    norm_num
  · intro m h1 h2
    rw [hmid] at h1
    interval_cases m <;> decide

/-- Claim C8: `logicalToCoordinate` and `coordinateToLogical` return
absent exactly when the time scale is empty (holds no data); in the
no-data case they return null rather than throwing, and otherwise they
return the underlying `indexToCoordinate` / `coordinateToIndex` result. -/
theorem c8_empty_scale_contract (ts : TimeScale) (i x : Int) :
    (logicalToCoordinate ts i = none ↔ ts.isEmpty = true) ∧
    (coordinateToLogical ts x = none ↔ ts.isEmpty = true) ∧
    (ts.isEmpty = true ↔ ts.points = []) ∧
    (ts.isEmpty = false →
      logicalToCoordinate ts i = some (ts.coord i) ∧
      coordinateToLogical ts x = some (ts.coordinateToIndex x)) := by
  cases h : ts.isEmpty with
  | false =>
    refine ⟨by simp [logicalToCoordinate, h], by simp [coordinateToLogical, h], ?_,
      fun _ => ⟨by simp [logicalToCoordinate, h], by simp [coordinateToLogical, h]⟩⟩
    simpa [TimeScale.isEmpty] using h
  | true =>
    refine ⟨by simp [logicalToCoordinate, h], by simp [coordinateToLogical, h], ?_,
      by simp [h]⟩
    simpa [TimeScale.isEmpty] using h

/-- Witness for claim C8: absent on the empty scale, the underlying
results on a non-empty one. -/
theorem c8_witness :
    logicalToCoordinate emptyTS 3 = none ∧
    logicalToCoordinate denseTS 3 = some (denseTS.coord 3) ∧
    coordinateToLogical denseTS 7 = some (denseTS.coordinateToIndex 7) := by
  refine ⟨(c8_empty_scale_contract emptyTS 3 0).1.mpr (by decide), ?_, ?_⟩
  · exact ((c8_empty_scale_contract denseTS 3 7).2.2.2 (by decide)).1
  · exact ((c8_empty_scale_contract denseTS 3 7).2.2.2 (by decide)).2

/-- Claim C9: the visible-time-range and visible-logical-range change
handlers construct their range payload and fire only when `hasListeners`
is true; with no registered listener nothing is constructed and no fire
occurs. -/
theorem c9_listener_guard (d : Delegate) (ts : TimeScale) :
    (d.hasListeners = false →
      onVisibleBarsChanged d ts = none ∧ onVisibleLogicalRangeChanged d ts = none) ∧
    (d.hasListeners = true →
      onVisibleBarsChanged d ts = some (getVisibleRange ts) ∧
      onVisibleLogicalRangeChanged d ts = some (getVisibleLogicalRange ts)) ∧
    (d.listeners = [] → d.hasListeners = false) := by
  refine ⟨?_, ?_, ?_⟩
  · intro h
    constructor <;> simp [onVisibleBarsChanged, onVisibleLogicalRangeChanged, h]
  · intro h
    constructor <;> simp [onVisibleBarsChanged, onVisibleLogicalRangeChanged, h]
  · intro h
    simp [Delegate.hasListeners, h]

/-- Witness for claim C9: no payload with an empty listener list, the
constructed payload with listeners registered. -/
theorem c9_witness :
    onVisibleBarsChanged (Delegate.mk []) denseTS = none ∧
    onVisibleBarsChanged (Delegate.mk [1, 2]) denseTS = some (getVisibleRange denseTS) ∧
    onVisibleLogicalRangeChanged (Delegate.mk [1, 2]) denseTS =
      some (getVisibleLogicalRange denseTS) := by
  refine ⟨((c9_listener_guard (Delegate.mk []) denseTS).1 (by decide)).1, ?_, ?_⟩
  · exact ((c9_listener_guard (Delegate.mk [1, 2]) denseTS).2.1 (by decide)).1
  · exact ((c9_listener_guard (Delegate.mk [1, 2]) denseTS).2.1 (by decide)).2

/-- Claim C10: each iteration of the binary-search loop with `l ≤ r`
either returns or strictly shrinks the window: the midpoint lies within
`[l, r]`, both successor windows have strictly smaller measure, and in the
non-returning branches the loop value equals the value on the shrunken
window. -/
theorem c10_loop_termination (ts : TimeScale) (k l r : Int) (hlr : l ≤ r) :
    (l ≤ midIndex l r ∧ midIndex l r ≤ r) ∧
    loopMeasure (midIndex l r + 1) r < loopMeasure l r ∧
    loopMeasure l (midIndex l r - 1) < loopMeasure l r ∧
    (∀ ck, ts.keyAt (midIndex l r) = some ck → ck < k → ¬ l = r - 1 →
      nearestLoop ts k l r = nearestLoop ts k (midIndex l r + 1) r) ∧
    (∀ ck, ts.keyAt (midIndex l r) = some ck → k < ck → ¬ l = r - 1 →
      nearestLoop ts k l r = nearestLoop ts k l (midIndex l r - 1)) := by
  have hmb := midIndex_bounds hlr
  refine ⟨hmb, ?_, ?_, ?_, ?_⟩
  · simp only [loopMeasure]
    omega
  · simp only [loopMeasure]
    omega
  · intro ck hck hlt hne
    have h1 : ¬ ck = k := by omega
    conv_lhs => rw [nearestLoop]
    simp [hlr, hck, h1, hlt, hne]
  · intro ck hck hlt hne
    have h1 : ¬ ck = k := by omega
    have h2 : ¬ ck < k := by omega
    conv_lhs => rw [nearestLoop]
    simp [hlr, hck, h1, h2, hne]

/-- Witness for claim C10 on the dense scale at window `[0, 5]`, target
key 25: the midpoint 2 holds key 20 < 25, so the loop recurses on the
strictly smaller window `[3, 5]`. -/
theorem c10_witness :
    loopMeasure (midIndex 0 5 + 1) 5 < loopMeasure 0 5 ∧
    nearestLoop denseTS 25 0 5 = nearestLoop denseTS 25 (midIndex 0 5 + 1) 5 := by
  refine ⟨(c10_loop_termination denseTS 25 0 5 (by norm_num)).2.1, ?_⟩
  exact (c10_loop_termination denseTS 25 0 5 (by norm_num)).2.2.2.1 20 (by decide)
    (by decide) (by decide)

/-- Witness for claim C1 at the concrete coordinate map of `tieTSc`. -/
theorem c1_witness : timeToCoordinateRounded tieTSc 7 = some (tieTSc.coord 2) :=
  c1_nearest_tie_scenario.1 (fun i => 10 * i)

/-- Witness for the amended claim C3 at the concrete coordinate map of
`gapTSc`. -/
theorem c3_witness :
    nearestLoop gapTSc 1 0 2 = some 2 ∧
    timeToCoordinateRounded gapTSc 1 = some (gapTSc.coord 0) :=
  c3_gap_scenario (fun i => 100 * i)
